import Mathlib

/-!
Verification of the filter-landing-page core of a static site generator.

The generator keeps a static tag index (page path to audience categories),
a category table (slug to display title), and an override table (exact path
to display title).  The function under study inverts the tag index for one
category: it collects every tagged path, resolves a display title for each
(root is fixed to "Home", otherwise the last path segment with separators
replaced by spaces and title-cased, then overridden by an exact-match
table), attaches an absolute URL, and sorts the entries by title with a
stable sort.

Python string primitives used by the code (strip, split, replace, title,
string comparison, stable list sort by key) are embedded below as
executable functions on lists of characters; machine strings are Lean
strings, compared by code point exactly as Python compares them.
-/

namespace BCCN

set_option maxRecDepth 10000 in
/-- Base URL prefix from the source configuration. -/
def BASE_URL : String := "/BCCN_website"

/-- The static tag index: page path to its list of category slugs, in
source order (Python dict preserves insertion order). -/
def PAGE_TAGS : List (String × List String) := [
  ("/", ["students", "faculty-and-staff", "off-campus-partners", "media", "funders-and-investors"]),
  ("/about/", ["students", "faculty-and-staff", "off-campus-partners", "media", "funders-and-investors"]),
  ("/students/", ["students"]),
  ("/students/climate-classes/", ["students", "faculty-and-staff"]),
  ("/students/internships-and-jobs/", ["students", "off-campus-partners"]),
  ("/students/clubs-and-organizations/", ["students"]),
  ("/students/hot-topics/", ["students", "media"]),
  ("/faculty-and-staff/", ["faculty-and-staff"]),
  ("/faculty-and-staff/people-projects-and-programs/", ["faculty-and-staff", "off-campus-partners", "funders-and-investors"]),
  ("/faculty-and-staff/financial-support/", ["faculty-and-staff", "funders-and-investors"]),
  ("/faculty-and-staff/hot-topics/", ["faculty-and-staff", "media"]),
  ("/faculty-and-staff/find-help/", ["faculty-and-staff", "students", "off-campus-partners"]),
  ("/bccn-resources/", ["students", "faculty-and-staff", "off-campus-partners"]),
  ("/bccn-resources/bccn-campus-climate-news/", ["students", "faculty-and-staff", "media"]),
  ("/bccn-resources/podcasts-and-videos/", ["students", "faculty-and-staff", "media", "off-campus-partners"]),
  ("/bccn-resources/hot-topics/", ["students", "faculty-and-staff", "media"]),
  ("/off-campus-partners/", ["off-campus-partners", "faculty-and-staff"]),
  ("/media/media-inquiries/", ["media", "faculty-and-staff"]),
  ("/funders-and-investors/", ["funders-and-investors", "off-campus-partners"]),
  ("/resources-and-tools/give-and-sponsor/", ["off-campus-partners", "funders-and-investors", "media"])]

/-- A category table entry: display title and slug, as in the source dict. -/
structure Category where
  title : String
  slug : String
deriving DecidableEq

/-- The category table, keyed by slug, in source order. -/
def FILTER_CATEGORIES : List (String × Category) := [
  ("students", { title := "Students", slug := "students" }),
  ("faculty-and-staff", { title := "Faculty & Staff", slug := "faculty-and-staff" }),
  ("off-campus-partners", { title := "Off-Campus Partners", slug := "off-campus-partners" }),
  ("media", { title := "Media", slug := "media" }),
  ("funders-and-investors", { title := "Funders/Investors", slug := "funders-and-investors" })]

/-- The override table: the chain of exact-match special cases in the
source, in source order, as a path to title lookup. -/
def title_override (page_url : String) : Option String :=
  if page_url = "/about/" then some "About BCCN"
  else if page_url = "/students/" then some "Students"
  else if page_url = "/students/climate-classes/" then some "Climate Classes"
  else if page_url = "/students/internships-and-jobs/" then some "Internships and Jobs"
  else if page_url = "/students/clubs-and-organizations/" then some "Clubs and Organizations"
  else if page_url = "/students/hot-topics/" then some "Hot Topics Global – Students"
  else if page_url = "/faculty-and-staff/" then some "Faculty and Staff"
  else if page_url = "/faculty-and-staff/people-projects-and-programs/" then some "People, Projects and Programs"
  else if page_url = "/faculty-and-staff/financial-support/" then some "Financial Support"
  else if page_url = "/faculty-and-staff/hot-topics/" then some "Global Hot Topics – Faculty & Staff"
  else if page_url = "/faculty-and-staff/find-help/" then some "Find HELP!"
  else if page_url = "/bccn-resources/" then some "Cool BCCN Resources"
  else if page_url = "/bccn-resources/bccn-campus-climate-news/" then some "BCCN Campus Climate News"
  else if page_url = "/bccn-resources/podcasts-and-videos/" then some "Podcasts and Videos"
  else if page_url = "/bccn-resources/hot-topics/" then some "BCCN Global Hot Topics – central"
  else if page_url = "/off-campus-partners/" then some "Off Campus Partners"
  else if page_url = "/media/media-inquiries/" then some "Media Inquiries"
  else if page_url = "/funders-and-investors/" then some "Funders/Investors"
  else if page_url = "/resources-and-tools/give-and-sponsor/" then some "Sponsors"
  else none

/-! ## Python string primitives on lists of characters -/

/-- Python split on a single separator character: always returns at least
one segment, empty segments between adjacent separators are kept. -/
def splitChars (sep : Char) : List Char → List (List Char)
  | [] => [[]]
  | c :: cs =>
    match splitChars sep cs with
    | [] => [[]]
    | s :: rest => if c == sep then [] :: s :: rest else (c :: s) :: rest

/-- Python strip with a single strip character: remove the maximal leading
and trailing runs of that character. -/
def stripChars (sep : Char) (l : List Char) : List Char :=
  ((l.dropWhile (· == sep)).reverse.dropWhile (· == sep)).reverse

/-- Helper for Python title-casing: a character participates in words
exactly when it is a cased (here: ASCII alphabetic) character. -/
def titleAux : Bool → List Char → List Char
  | _, [] => []
  | prevCased, c :: cs =>
    if c.isAlpha then
      (if prevCased then c.toLower else c.toUpper) :: titleAux true cs
    else
      c :: titleAux false cs

/-- Python str.strip restricted to one strip character, on strings. -/
def pyStrip (sep : Char) (s : String) : String := ⟨stripChars sep s.data⟩

/-- Python str.split on a single separator character, on strings. -/
def pySplit (sep : Char) (s : String) : List String :=
  (splitChars sep s.data).map (fun cs => ⟨cs⟩)

/-- Python str.replace for single characters, on strings. -/
def pyReplace (old new : Char) (s : String) : String :=
  ⟨s.data.map (fun c => if c == old then new else c)⟩

/-- Python str.title on strings: word starts are uppercased, the rest of
each word lowercased; word boundaries are non-alphabetic characters. -/
def pyTitle (s : String) : String := ⟨titleAux false s.data⟩

/-- Python string comparison, strictly less: lexicographic by code point. -/
def lexLt : List Char → List Char → Bool
  | [], [] => false
  | [], _ :: _ => true
  | _ :: _, [] => false
  | a :: as, b :: bs => if a < b then true else if b < a then false else lexLt as bs

/-- Python string comparison, less or equal, as the negation of the
reversed strict comparison. -/
def lexLe (a b : List Char) : Bool := !(lexLt b a)

/-! ## The filter page builder -/

/-- The default display title derived from a path: strip separators, split
on the separator, take the last segment, replace separators by spaces and
title-case (source lines 590 to 592). -/
def default_title (page_url : String) : String :=
  pyTitle (pyReplace '-' ' ' ((pySplit '/' (pyStrip '/' page_url)).getLastD ""))

/-- Title resolution for one path, over an arbitrary override table: the
root path is fixed to "Home"; otherwise the derived default, replaced by
the exact-match override when one exists (source lines 587 to 632). -/
def resolve_title (ov : String → Option String) (page_url : String) : String :=
  if page_url = "/" then "Home"
  else
    match ov page_url with
    | some t => t
    | none => default_title page_url

/-- The absolute URL of an entry (source lines 634 to 637). -/
def url_of (page_url : String) : String :=
  if page_url ≠ "/" then BASE_URL ++ page_url else BASE_URL ++ "/"

/-- One listing entry: display title and absolute URL. -/
def mk_entry (ov : String → Option String) (page_url : String) : String × String :=
  (resolve_title ov page_url, url_of page_url)

/-- The loop over the tag index: keep the paths tagged with the requested
slug, in index order, and build their entries (source lines 583 to 637). -/
def tagged_pages (page_tags : List (String × List String))
    (ov : String → Option String) (category_slug : String) : List (String × String) :=
  (page_tags.filter (fun pt => pt.2.contains category_slug)).map (fun pt => mk_entry ov pt.1)

/-- The order used by the sort: by display title, under Python string
comparison. -/
def titleLe (a b : String × String) : Prop := lexLe a.1.data b.1.data = true

instance : DecidableRel titleLe := fun a b => by unfold titleLe; infer_instance

/-- Python list.sort is a stable sort by the given key; it is embedded as
the stable insertion sort by title (source line 640). -/
def sortListing (l : List (String × String)) : List (String × String) :=
  List.insertionSort titleLe l

/-- A generated filter page: output path, category display title, and the
sorted listing of (title, url) entries.  The surrounding HTML rendering,
breadcrumb and audience-filter flag are out-of-scope template assembly. -/
structure FilterPage where
  path : String
  title : String
  listing : List (String × String)
deriving DecidableEq

/-- Failure of the builder: the requested slug is missing from the
category table (the subscript on the category table in the source). -/
inductive GenError
  | unknownCategory (slug : String)
deriving DecidableEq

/-- The filter page builder over explicit tag-index and override inputs:
look the slug up in the category table (failing fast when absent), invert
the tag index for it, resolve titles and URLs, and sort by title
(source lines 577 to 673). -/
def create_filter_landing_page_gen (page_tags : List (String × List String))
    (ov : String → Option String) (category_slug : String) : Except GenError FilterPage :=
  match FILTER_CATEGORIES.lookup category_slug with
  | none => Except.error (GenError.unknownCategory category_slug)
  | some category =>
    Except.ok
      { path := "filter/" ++ category_slug ++ "/index.html",
        title := category.title,
        listing := sortListing (tagged_pages page_tags ov category_slug) }

/-- The builder as the source runs it: on the static tag index and the
static override chain. -/
def create_filter_landing_page (category_slug : String) : Except GenError FilterPage :=
  create_filter_landing_page_gen PAGE_TAGS title_override category_slug

/-- The listing of the filter page generated for a slug (empty when the
builder fails). -/
def listingOf (category_slug : String) : List (String × String) :=
  match create_filter_landing_page category_slug with
  | Except.ok fp => fp.listing
  | Except.error _ => []

/-! ## Verification helpers -/

/-- Append one character to the last segment of a nonempty segment list. -/
def appendLast (c : Char) : List (List Char) → List (List Char)
  | [] => [[c]]
  | [s] => [s ++ [c]]
  | s :: s2 :: rest => s :: appendLast c (s2 :: rest)

/-- The default-title pipeline exactly as the specification words it:
split the path into segments at the separator, take the last non-empty
segment, replace separators by spaces, title-case; the raw path is the
fallback when every segment is empty. -/
def spec_default_title (p : String) : String :=
  pyTitle (pyReplace '-' ' ' (((pySplit '/' p).filter (fun s => s ≠ "")).getLastD p))

/-! ## Properties of the split, strip and last-segment pipeline -/

theorem splitChars_ne_nil (sep : Char) (l : List Char) : splitChars sep l ≠ [] := by
  cases l with
  | nil => simp [splitChars]
  | cons c cs =>
    simp only [splitChars]
    cases splitChars sep cs with
    | nil => simp
    | cons s rest =>
      by_cases h : c == sep <;> simp [h]

theorem appendLast_ne_nil (c : Char) (L : List (List Char)) : appendLast c L ≠ [] := by
  match L with
  | [] => simp [appendLast]
  | [s] => simp [appendLast]
  | s :: s2 :: rest => simp [appendLast]

theorem splitChars_snoc (sep : Char) (l : List Char) (c : Char) :
    splitChars sep (l ++ [c]) =
      if c == sep then splitChars sep l ++ [[]] else appendLast c (splitChars sep l) := by
  induction l with
  | nil =>
    by_cases h : c == sep <;> simp [h, splitChars, appendLast]
  | cons a t ih =>
    have hne := splitChars_ne_nil sep t
    obtain ⟨s₀, r₀, hs⟩ := List.exists_cons_of_ne_nil hne
    by_cases hc : c == sep
    · by_cases ha : a == sep
      · simp [List.cons_append, splitChars, ih, hs, hc, ha]
      · simp [List.cons_append, splitChars, ih, hs, hc, ha]
    · by_cases ha : a == sep
      · cases r₀ with
        | nil => simp [List.cons_append, splitChars, ih, hs, hc, ha, appendLast]
        | cons r₁ rs => simp [List.cons_append, splitChars, ih, hs, hc, ha, appendLast]
      · cases r₀ with
        | nil => simp [List.cons_append, splitChars, ih, hs, hc, ha, appendLast]
        | cons r₁ rs => simp [List.cons_append, splitChars, ih, hs, hc, ha, appendLast]

theorem appendLast_getLastD (c : Char) (L : List (List Char)) (hL : L ≠ []) (d : List Char) :
    (appendLast c L).getLastD d = L.getLastD d ++ [c] := by
  match L with
  | [s] => simp [appendLast]
  | s :: s2 :: rest =>
    have ih := appendLast_getLastD c (s2 :: rest) (by simp) s
    simp only [appendLast, List.getLastD_cons, ih]

theorem last_splitChars (sep : Char) (l : List Char) :
    (splitChars sep l).getLastD [] =
      (l.reverse.takeWhile (fun c => !(c == sep))).reverse := by
  induction l using List.reverseRecOn with
  | nil => simp [splitChars]
  | append_singleton t c ih =>
    rw [splitChars_snoc]
    by_cases hc : c == sep
    · simp [hc, List.getLastD_concat, List.takeWhile_cons]
    · have hne := splitChars_ne_nil sep t
      rw [if_neg (by simp [hc]), appendLast_getLastD c _ hne, ih]
      simp [List.takeWhile_cons, hc]

theorem filter_appendLast (c : Char) (L : List (List Char)) (hL : L ≠ []) :
    ((appendLast c L).filter (fun s => !s.isEmpty)) ≠ [] ∧
      ((appendLast c L).filter (fun s => !s.isEmpty)).getLastD [] = L.getLastD [] ++ [c] := by
  match L with
  | [s] =>
    have hne : (s ++ [c]).isEmpty = false := by cases s <;> rfl
    constructor
    · simp [appendLast, List.filter_cons, hne]
    · simp [appendLast, List.filter_cons, hne]
  | s :: s2 :: rest =>
    have ih := filter_appendLast c (s2 :: rest) (by simp)
    obtain ⟨y, ys, hy⟩ := List.exists_cons_of_ne_nil ih.1
    by_cases hs : s.isEmpty
    · have h1 : ((appendLast c (s :: s2 :: rest)).filter (fun s => !s.isEmpty)) =
          ((appendLast c (s2 :: rest)).filter (fun s => !s.isEmpty)) := by
        simp [appendLast, List.filter_cons, hs]
      constructor
      · rw [h1]; exact ih.1
      · rw [h1, ih.2]
        simp [List.getLastD_cons]
    · have h1 : ((appendLast c (s :: s2 :: rest)).filter (fun s => !s.isEmpty)) =
          s :: ((appendLast c (s2 :: rest)).filter (fun s => !s.isEmpty)) := by
        simp [appendLast, List.filter_cons, hs]
      constructor
      · rw [h1]; simp
      · rw [h1, List.getLastD_cons, hy, List.getLastD_cons]
        have h2 : ys.getLastD y = (s2 :: rest).getLastD [] ++ [c] := by
          have h3 := ih.2
          rw [hy, List.getLastD_cons] at h3
          exact h3
        rw [h2]
        simp [List.getLastD_cons]

theorem lastNonEmpty_splitChars (sep : Char) (l : List Char) :
    (((splitChars sep l).filter (fun s => !s.isEmpty)).getLastD []) =
      ((l.reverse.dropWhile (· == sep)).takeWhile (fun c => !(c == sep))).reverse := by
  induction l using List.reverseRecOn with
  | nil => simp [splitChars]
  | append_singleton t c ih =>
    rw [splitChars_snoc]
    by_cases hc : c == sep
    · rw [if_pos hc]
      have heq : (c == sep) = true := hc
      simp only [List.filter_append, List.filter, List.isEmpty_nil, Bool.not_true,
        List.append_nil, List.reverse_append, List.reverse_singleton, List.singleton_append,
        List.dropWhile_cons, heq, if_true]
      exact ih
    · rw [if_neg (by simp [hc])]
      have h2 := filter_appendLast c (splitChars sep t) (splitChars_ne_nil sep t)
      rw [h2.2]
      have hlast := last_splitChars sep t
      rw [hlast]
      simp [List.dropWhile_cons, List.takeWhile_cons, hc]

theorem dropWhile_append_of_exists {α : Type} (p : α → Bool) (a b : List α)
    (h : ∃ x ∈ a, p x = false) : (a ++ b).dropWhile p = a.dropWhile p ++ b := by
  induction a with
  | nil => obtain ⟨x, hx, _⟩ := h; cases hx
  | cons y ys ih =>
    by_cases hy : p y
    · have hex : ∃ x ∈ ys, p x = false := by
        obtain ⟨x, hx, hpx⟩ := h
        cases List.mem_cons.mp hx with
        | inl heq => rw [heq] at hpx; rw [hpx] at hy; cases hy
        | inr hmem => exact ⟨x, hmem, hpx⟩
      simp [List.dropWhile_cons, hy, ih hex]
    · simp [List.dropWhile_cons, hy]

theorem takeWhile_append_of_all {α : Type} (p : α → Bool) (a b : List α)
    (h : ∀ x ∈ b, p x = false) : (a ++ b).takeWhile p = a.takeWhile p := by
  induction a with
  | nil =>
    simp only [List.nil_append, List.takeWhile_nil]
    cases b with
    | nil => rfl
    | cons y ys =>
      have : p y = false := h y (by simp)
      simp [List.takeWhile_cons, this]
  | cons y ys ih =>
    by_cases hy : p y
    · simp [List.takeWhile_cons, hy, ih]
    · simp [List.takeWhile_cons, hy]

theorem strip_split_last (sep : Char) (l : List Char)
    (h : ∃ c ∈ l, (c == sep) = false) :
    (splitChars sep (stripChars sep l)).getLastD [] =
      ((splitChars sep l).filter (fun s => !s.isEmpty)).getLastD [] := by
  rw [last_splitChars, lastNonEmpty_splitChars]
  congr 1
  have hrev : (stripChars sep l).reverse = (l.dropWhile (· == sep)).reverse.dropWhile (· == sep) := by
    simp [stripChars, List.reverse_reverse]
  rw [hrev]
  have hsplit : l = l.takeWhile (· == sep) ++ l.dropWhile (· == sep) :=
    (List.takeWhile_append_dropWhile _ _).symm
  have hwit : ∃ x ∈ (l.dropWhile (· == sep)).reverse, (x == sep) = false := by
    obtain ⟨c, hc, hcp⟩ := h
    refine ⟨c, ?_, hcp⟩
    rw [List.mem_reverse]
    rcases List.mem_append.mp (hsplit ▸ hc) with htk | hdr
    · have := List.mem_takeWhile_imp htk
      rw [this] at hcp; cases hcp
    · exact hdr
  conv_rhs => rw [hsplit]
  rw [List.reverse_append]
  rw [dropWhile_append_of_exists _ _ _ hwit]
  rw [takeWhile_append_of_all]
  intro x hx
  have := List.mem_takeWhile_imp (List.mem_reverse.mp hx)
  simp [this]

theorem mem_of_mem_splitChars (sep : Char) :
    ∀ (l s : List Char), s ∈ splitChars sep l → ∀ x ∈ s, x ∈ l ∧ (x == sep) = false := by
  intro l
  induction l with
  | nil =>
    intro s hs x hx
    simp [splitChars] at hs
    subst hs
    cases hx
  | cons a t ih =>
    intro s hs x hx
    obtain ⟨s₀, r₀, h0⟩ := List.exists_cons_of_ne_nil (splitChars_ne_nil sep t)
    by_cases ha : a == sep
    · have hsplit : splitChars sep (a :: t) = [] :: splitChars sep t := by
        simp only [splitChars, h0]
        simp [ha]
      rw [hsplit] at hs
      rcases List.mem_cons.mp hs with h | h
      · subst h; cases hx
      · have h2 := ih s h x hx
        exact ⟨List.mem_cons_of_mem a h2.1, h2.2⟩
    · have hsplit : splitChars sep (a :: t) = (a :: s₀) :: r₀ := by
        simp only [splitChars, h0]
        simp [ha]
      rw [hsplit] at hs
      rcases List.mem_cons.mp hs with h | h
      · subst h
        rcases List.mem_cons.mp hx with hxa | hxs
        · subst hxa
          refine ⟨List.mem_cons_self _ _, ?_⟩
          simpa using ha
        · have h2 := ih s₀ (by rw [h0]; exact List.mem_cons_self _ _) x hxs
          exact ⟨List.mem_cons_of_mem a h2.1, h2.2⟩
      · have h2 := ih s (by rw [h0]; exact List.mem_cons_of_mem s₀ h) x hx
        exact ⟨List.mem_cons_of_mem a h2.1, h2.2⟩

theorem getLastD_map {α β : Type} (f : α → β) (L : List α) (a : α) :
    (L.map f).getLastD (f a) = f (L.getLastD a) := by
  induction L generalizing a with
  | nil => rfl
  | cons b t ih =>
    rw [List.map_cons, List.getLastD_cons, List.getLastD_cons]
    exact ih b

theorem getLastD_map_of_ne_nil {α β : Type} (f : α → β) (L : List α) (hL : L ≠ [])
    (d : β) (a : α) : (L.map f).getLastD d = f (L.getLastD a) := by
  obtain ⟨x, xs, rfl⟩ := List.exists_cons_of_ne_nil hL
  rw [List.map_cons, List.getLastD_cons, List.getLastD_cons]
  exact getLastD_map f xs x

/-! ## Properties of the comparison and the sort -/

theorem lexLt_irrefl (a : List Char) : lexLt a a = false := by
  induction a with
  | nil => rfl
  | cons x xs ih => simp [lexLt, lt_irrefl, ih]

theorem lexLt_trans (a b c : List Char) (hab : lexLt a b = true) (hbc : lexLt b c = true) :
    lexLt a c = true := by
  induction a generalizing b c with
  | nil =>
    cases b with
    | nil => cases hab
    | cons y ys =>
      cases c with
      | nil => simp [lexLt] at hbc
      | cons z zs => rfl
  | cons x xs ih =>
    cases b with
    | nil => simp [lexLt] at hab
    | cons y ys =>
      cases c with
      | nil => simp [lexLt] at hbc
      | cons z zs =>
        simp only [lexLt] at hab hbc ⊢
        by_cases hxy : x < y
        · by_cases hyz : y < z
          · simp [lt_trans hxy hyz]
          · by_cases hzy : z < y
            · simp [hyz, hzy] at hbc
            · have heq : y = z := le_antisymm (not_lt.mp hzy) (not_lt.mp hyz)
              subst heq
              simp [hxy]
        · by_cases hyx : y < x
          · simp [hxy, hyx] at hab
          · have heq : x = y := le_antisymm (not_lt.mp hyx) (not_lt.mp hxy)
            subst heq
            simp only [lt_irrefl, if_false] at hab
            by_cases hxz : x < z
            · simp [hxz]
            · by_cases hzx : z < x
              · simp [hxz, hzx] at hbc
              · have heq2 : x = z := le_antisymm (not_lt.mp hzx) (not_lt.mp hxz)
                subst heq2
                simp only [lt_irrefl, if_false] at hbc ⊢
                exact ih ys zs hab hbc

theorem lexLt_asymm (a b : List Char) (h : lexLt a b = true) : lexLt b a = false := by
  by_contra hcon
  rw [Bool.not_eq_false] at hcon
  have h2 := lexLt_trans a b a h hcon
  rw [lexLt_irrefl] at h2
  cases h2

theorem lexLt_eq_of_not (a b : List Char) (hab : lexLt a b = false) (hba : lexLt b a = false) :
    a = b := by
  induction a generalizing b with
  | nil =>
    cases b with
    | nil => rfl
    | cons y ys => cases hab
  | cons x xs ih =>
    cases b with
    | nil => cases hba
    | cons y ys =>
      simp only [lexLt] at hab hba
      by_cases hxy : x < y
      · simp [hxy] at hab
      · by_cases hyx : y < x
        · simp [hyx, hxy] at hba
        · have heq : x = y := le_antisymm (not_lt.mp hyx) (not_lt.mp hxy)
          subst heq
          simp only [lt_irrefl, if_false] at hab hba
          rw [ih ys hab hba]

theorem titleLe_total (a b : String × String) : titleLe a b ∨ titleLe b a := by
  unfold titleLe lexLe
  cases hab : lexLt b.1.data a.1.data
  · left; simp
  · right
    rw [lexLt_asymm _ _ hab]
    rfl

theorem titleLe_trans (a b c : String × String) (hab : titleLe a b) (hbc : titleLe b c) :
    titleLe a c := by
  unfold titleLe lexLe at hab hbc ⊢
  rw [Bool.not_eq_true'] at hab hbc ⊢
  by_contra hcon
  rw [Bool.not_eq_false] at hcon
  by_cases hbc2 : lexLt b.1.data c.1.data
  · have h2 := lexLt_trans _ _ _ hbc2 hcon
    rw [hab] at h2
    cases h2
  · have heq : b.1.data = c.1.data :=
      lexLt_eq_of_not _ _ (Bool.not_eq_true _ ▸ (by simpa using hbc2)) hbc
    rw [← heq] at hcon
    rw [hcon] at hab
    cases hab

theorem sortListing_sorted (l : List (String × String)) :
    List.Sorted titleLe (sortListing l) := by
  letI : IsTotal (String × String) titleLe := ⟨titleLe_total⟩
  letI : IsTrans (String × String) titleLe := ⟨titleLe_trans⟩
  exact List.sorted_insertionSort titleLe l

theorem default_title_of_all_sep (p : String) (hall : ∀ c ∈ p.data, c = '/') :
    pySplit '/' (pyStrip '/' p) ≠ [] ∧ default_title p = "" := by
  have h1 : p.data.dropWhile (· == '/') = [] := by
    rw [List.dropWhile_eq_nil_iff]
    intro x hx
    simp [hall x hx]
  have hstrip : stripChars '/' p.data = [] := by
    simp [stripChars, h1]
  have hps : pyStrip '/' p = "" := by
    unfold pyStrip
    rw [hstrip]
  unfold default_title
  rw [hps]
  exact ⟨by decide, by decide⟩

/-! ## The claims -/

/-- C1: for every category slug in the category table and every path in
the tag index, the listing generated for that category contains exactly
one entry whose URL is resolved from that path exactly when the path's
category set contains the slug, and no entry for a path lacking the slug
ever appears. -/
theorem c1_filter_listing_inversion :
    ∀ sc ∈ FILTER_CATEGORIES, ∀ pt ∈ PAGE_TAGS,
      (listingOf sc.1).countP (fun e => e.2 == url_of pt.1) =
        (if sc.1 ∈ pt.2 then 1 else 0) := by decide

theorem c1_filter_listing_inversion_witness :
    (listingOf "students").countP (fun e => e.2 == url_of "/") = 1 :=
  c1_filter_listing_inversion ("students", { title := "Students", slug := "students" })
    (by decide)
    ("/", ["students", "faculty-and-staff", "off-campus-partners", "media", "funders-and-investors"])
    (by decide)

set_option maxRecDepth 10000 in
/-- C2: for every non-root path in the tag index with an explicit entry in
the override table, the title rendered for that path in any filter page
listing that contains it equals the override value, never the derived
default. -/
theorem c2_override_precedence :
    ∀ sc ∈ FILTER_CATEGORIES, ∀ pt ∈ PAGE_TAGS, pt.1 ≠ "/" →
      (title_override pt.1).isSome = true → sc.1 ∈ pt.2 →
      (∃ e ∈ listingOf sc.1, e.2 = url_of pt.1 ∧ title_override pt.1 = some e.1) ∧
      (∀ e ∈ listingOf sc.1, e.2 = url_of pt.1 → title_override pt.1 = some e.1) := by decide

theorem c2_override_precedence_witness :
    (∃ e ∈ listingOf "students", e.2 = url_of "/about/" ∧ title_override "/about/" = some e.1) ∧
      (∀ e ∈ listingOf "students", e.2 = url_of "/about/" → title_override "/about/" = some e.1) :=
  c2_override_precedence ("students", { title := "Students", slug := "students" }) (by decide)
    ("/about/", ["students", "faculty-and-staff", "off-campus-partners", "media", "funders-and-investors"])
    (by decide) (by decide) (by decide) (by decide)

set_option maxRecDepth 10000 in
/-- C3: every filter page listing is sorted ascending by title under
case-sensitive lexicographic comparison by code point, and an entry with a
strictly smaller title always precedes one with a strictly larger title
(no later entry has a title strictly below an earlier one). -/
theorem c3_listing_sorted_by_title :
    ∀ sc ∈ FILTER_CATEGORIES,
      List.Pairwise (fun a b : String × String => lexLe a.1.data b.1.data = true) (listingOf sc.1) ∧
      List.Pairwise (fun a b : String × String => lexLt b.1.data a.1.data = false) (listingOf sc.1) := by decide

theorem c3_listing_sorted_by_title_witness :
    List.Pairwise (fun a b : String × String => lexLe a.1.data b.1.data = true) (listingOf "students") ∧
      List.Pairwise (fun a b : String × String => lexLt b.1.data a.1.data = false) (listingOf "students") :=
  c3_listing_sorted_by_title ("students", { title := "Students", slug := "students" }) (by decide)

set_option maxRecDepth 10000 in
/-- C4: for every non-root path with no applicable override and at least
one non-empty segment, the rendered title is the spec pipeline: split the
path into segments, take the last non-empty segment, replace separators by
spaces and title-case.  Stated over an arbitrary override table because in
the shipped tag index every non-root path has an override. -/
theorem c4_default_title_matches_spec (ov : String → Option String) (p : String)
    (hroot : p ≠ "/") (hov : ov p = none) (hseg : ∃ s ∈ pySplit '/' p, s ≠ "") :
    resolve_title ov p = spec_default_title p := by
  obtain ⟨s, hsmem, hsne⟩ := hseg
  obtain ⟨cs, hcs, rfl⟩ := List.mem_map.mp hsmem
  have hcsne : cs ≠ [] := by
    intro h
    subst h
    exact hsne rfl
  obtain ⟨x, xs, rfl⟩ := List.exists_cons_of_ne_nil hcsne
  have hchar : ∃ c ∈ p.data, (c == '/') = false := by
    have h2 := mem_of_mem_splitChars '/' p.data _ hcs x (by simp)
    exact ⟨x, h2.1, h2.2⟩
  have hS := splitChars_ne_nil '/' (stripChars '/' p.data)
  have hcode : (pySplit '/' (pyStrip '/' p)).getLastD "" =
      (⟨(splitChars '/' (stripChars '/' p.data)).getLastD []⟩ : String) :=
    getLastD_map_of_ne_nil _ _ hS "" []
  have hfil : (pySplit '/' p).filter (fun s => s ≠ "") =
      ((splitChars '/' p.data).filter (fun cs => !cs.isEmpty)).map
        (fun cs => (⟨cs⟩ : String)) := by
    unfold pySplit
    rw [List.filter_map]
    congr 1
    apply List.filter_congr
    intro cs2 hcs2
    cases cs2 with
    | nil => rfl
    | cons z zs => simp [String.ext_iff]
  have hfilne : (splitChars '/' p.data).filter (fun cs => !cs.isEmpty) ≠ [] := by
    apply List.ne_nil_of_mem (a := x :: xs)
    rw [List.mem_filter]
    exact ⟨hcs, by simp⟩
  have hspec : ((pySplit '/' p).filter (fun s => s ≠ "")).getLastD p =
      (⟨((splitChars '/' p.data).filter (fun cs => !cs.isEmpty)).getLastD []⟩ : String) := by
    rw [hfil]
    exact getLastD_map_of_ne_nil _ _ hfilne p []
  simp only [resolve_title, if_neg hroot, hov]
  unfold default_title spec_default_title
  rw [hcode, hspec, strip_split_last '/' p.data hchar]

theorem c4_default_title_matches_spec_witness :
    resolve_title (fun _ => none) "/foo-bar/baz/" = spec_default_title "/foo-bar/baz/" :=
  c4_default_title_matches_spec (fun _ => none) "/foo-bar/baz/" (by decide) rfl (by decide)

/-- C5: whenever the root path appears in a filter page listing, its
rendered title is exactly "Home", for every override table whatsoever. -/
theorem c5_root_title_always_home :
    ∀ (ov : String → Option String) (slug : String) (fp : FilterPage),
      create_filter_landing_page_gen PAGE_TAGS ov slug = Except.ok fp →
      ∀ e ∈ fp.listing, e.2 = BASE_URL ++ "/" → e.1 = "Home" := by
  intro ov slug fp hok e he hurl
  unfold create_filter_landing_page_gen at hok
  cases hcat : FILTER_CATEGORIES.lookup slug with
  | none => rw [hcat] at hok; exact absurd hok (by simp)
  | some c =>
    rw [hcat] at hok
    cases hok
    have he' : e ∈ tagged_pages PAGE_TAGS ov slug :=
      ((List.perm_insertionSort titleLe _).mem_iff).mp he
    unfold tagged_pages at he'
    rcases List.mem_map.mp he' with ⟨pt, hpt, rfl⟩
    have hptmem : pt ∈ PAGE_TAGS := (List.mem_filter.mp hpt).1
    have hurl' : url_of pt.1 = BASE_URL ++ "/" := hurl
    have hroot : pt.1 = "/" := by
      have hall : ∀ q ∈ PAGE_TAGS, url_of q.1 = BASE_URL ++ "/" → q.1 = "/" := by decide
      exact hall pt hptmem hurl'
    show resolve_title ov pt.1 = "Home"
    rw [hroot]
    rfl

theorem c5_root_title_always_home_witness :
    (("Home", "/BCCN_website/") : String × String).1 = "Home" :=
  c5_root_title_always_home title_override "funders-and-investors"
    { path := "filter/funders-and-investors/index.html",
      title := "Funders/Investors",
      listing := [("About BCCN", "/BCCN_website/about/"),
        ("Financial Support", "/BCCN_website/faculty-and-staff/financial-support/"),
        ("Funders/Investors", "/BCCN_website/funders-and-investors/"),
        ("Home", "/BCCN_website/"),
        ("People, Projects and Programs", "/BCCN_website/faculty-and-staff/people-projects-and-programs/"),
        ("Sponsors", "/BCCN_website/resources-and-tools/give-and-sponsor/")] }
    rfl ("Home", "/BCCN_website/") (by decide) (by decide)

/-- C6: every entry of every filter page listing belongs to a path tagged
with the category, and its URL is the configured base path followed by the
path, except that the root identifier yields the base path with a single
trailing separator. -/
theorem c6_entry_url_from_base_and_path :
    ∀ sc ∈ FILTER_CATEGORIES, ∀ e ∈ listingOf sc.1,
      ∃ pt ∈ PAGE_TAGS, sc.1 ∈ pt.2 ∧
        e.2 = (if pt.1 = "/" then BASE_URL ++ "/" else BASE_URL ++ pt.1) := by decide

theorem c6_entry_url_from_base_and_path_witness :
    ∃ pt ∈ PAGE_TAGS, ("students" : String) ∈ pt.2 ∧
      ("/BCCN_website/about/" : String) =
        (if pt.1 = "/" then BASE_URL ++ "/" else BASE_URL ++ pt.1) :=
  c6_entry_url_from_base_and_path ("students", { title := "Students", slug := "students" })
    (by decide) ("About BCCN", "/BCCN_website/about/") (by decide)

/-- C7: invoking the builder with a slug absent from the category table
fails fast with the unknown-category error, and with a slug present in the
table it succeeds. -/
theorem c7_unknown_category_fails_fast :
    ∀ slug : String,
      (FILTER_CATEGORIES.lookup slug = none →
        create_filter_landing_page slug = Except.error (GenError.unknownCategory slug)) ∧
      (∀ c, FILTER_CATEGORIES.lookup slug = some c →
        (create_filter_landing_page slug).isOk = true) := by
  intro slug
  constructor
  · intro h
    unfold create_filter_landing_page create_filter_landing_page_gen
    rw [h]
  · intro c h
    unfold create_filter_landing_page create_filter_landing_page_gen
    rw [h]
    rfl

theorem c7_unknown_category_fails_fast_witness :
    create_filter_landing_page "nope" = Except.error (GenError.unknownCategory "nope") ∧
      (create_filter_landing_page "students").isOk = true :=
  ⟨(c7_unknown_category_fails_fast "nope").1 (by decide),
   (c7_unknown_category_fails_fast "students").2
     { title := "Students", slug := "students" } (by decide)⟩

/-- C8 counterexample: on the all-separator path the rendered title is the
empty string, not the raw path string the claim requires. -/
theorem c8_counterexample_raw_path_fallback :
    resolve_title title_override "//" = "" ∧ ("" : String) ≠ "//" := by decide

/-- C8 amended: for every non-root path that cannot be split into
non-empty segments, default-title derivation does not fail (the split is
never empty) and the rendered title is the empty string, not the raw
path. -/
theorem c8_all_separator_title_is_empty (p : String) (_hroot : p ≠ "/")
    (hall : ∀ c ∈ p.data, c = '/') :
    pySplit '/' (pyStrip '/' p) ≠ [] ∧ default_title p = "" :=
  default_title_of_all_sep p hall

theorem c8_all_separator_title_is_empty_witness :
    pySplit '/' (pyStrip '/' "//") ≠ [] ∧ default_title "//" = "" :=
  c8_all_separator_title_is_empty "//" (by decide) (by decide)

/-- C9: for a category present in the table but with zero tagged paths in
the tag index, the builder still returns a well-formed filter page whose
listing is empty and does not fail.  Stated over an arbitrary tag index
because in the shipped index every category has at least one tagged
path. -/
theorem c9_empty_category_ok :
    ∀ (page_tags : List (String × List String)) (slug : String) (c : Category),
      FILTER_CATEGORIES.lookup slug = some c →
      (∀ pt ∈ page_tags, slug ∉ pt.2) →
      create_filter_landing_page_gen page_tags title_override slug =
        Except.ok { path := "filter/" ++ slug ++ "/index.html", title := c.title, listing := [] } := by
  intro pts slug c h hnone
  unfold create_filter_landing_page_gen
  rw [h]
  have hfil : pts.filter (fun pt => pt.2.contains slug) = [] := by
    rw [List.filter_eq_nil_iff]
    intro pt hpt
    simpa using hnone pt hpt
  unfold sortListing tagged_pages
  rw [hfil]
  rfl

theorem c9_empty_category_ok_witness :
    create_filter_landing_page_gen [] title_override "media" =
      Except.ok { path := "filter/media/index.html", title := "Media", listing := [] } :=
  c9_empty_category_ok [] "media" { title := "Media", slug := "media" } (by decide) (by decide)

/-- C10: title derivation is total (stripping and splitting never yields
an empty segment list, so taking the last segment never fails); for a path
of separator characters only the derived title is the empty string; and in
any sorted listing an entry with the empty title precedes every entry with
a non-empty title. -/
theorem c10_title_derivation_total :
    (∀ p : String, pySplit '/' (pyStrip '/' p) ≠ []) ∧
      (∀ p : String, p ≠ "/" → (∀ c ∈ p.data, c = '/') → default_title p = "") ∧
      (∀ (l : List (String × String)) (i j : Fin (sortListing l).length),
        ((sortListing l).get i).1 = "" → ((sortListing l).get j).1 ≠ "" → i < j) := by
  refine ⟨?_, ?_, ?_⟩
  · intro p
    unfold pySplit
    intro hcon
    exact splitChars_ne_nil '/' (pyStrip '/' p).data (List.map_eq_nil_iff.mp hcon)
  · intro p hroot hall
    exact (default_title_of_all_sep p hall).2
  · intro l i j hi hj
    rcases lt_trichotomy i j with h | h | h
    · exact h
    · exfalso
      rw [h] at hi
      exact hj hi
    · exfalso
      have hrel : titleLe ((sortListing l).get j) ((sortListing l).get i) :=
        List.Sorted.rel_get_of_lt (sortListing_sorted l) h
      unfold titleLe lexLe at hrel
      rw [hi] at hrel
      have hdata : (((sortListing l).get j).1).data = [] := by
        cases hd : (((sortListing l).get j).1).data with
        | nil => rfl
        | cons z zs =>
          rw [hd] at hrel
          simp [lexLt] at hrel
      apply hj
      rw [String.ext_iff, hdata]

theorem c10_title_derivation_total_witness :
    pySplit '/' (pyStrip '/' "/a/") ≠ [] ∧
      default_title "///" = "" ∧
      (⟨0, by decide⟩ : Fin (sortListing [("a", "u"), ("", "v")]).length) < ⟨1, by decide⟩ :=
  ⟨c10_title_derivation_total.1 "/a/",
   c10_title_derivation_total.2.1 "///" (by decide) (by decide),
   c10_title_derivation_total.2.2 [("a", "u"), ("", "v")] ⟨0, by decide⟩ ⟨1, by decide⟩
     (by decide) (by decide)⟩

end BCCN
